import Mathlib

/-!
Verification of the opengl-examples repository's specification against its
source.  The development has three parts:

* a shallow embedding of the matrix row/column accessors of
  `src/kuhl-util.h` (claim C9);
* a shallow embedding of `serial_find` from `src/lib/serial.c`, reading
  from a byte stream modelled as a `List Nat` (claim C10);
* a model of the DGR state-synchronization core (claims C1-C8).  The DGR
  implementation files (dgr.c / dgr-relay.cpp) are referenced by the build
  system but are not part of the available sources, so the model is built
  from the specification's own description of the data model, the frame
  synchronizer, the store, and the relay.
-/

/- ## Part 1: matrix accessors from src/kuhl-util.h -/

/-- From src/kuhl-util.h line 666: `matN_getIndex(row, col, n) = row + col*n`
(column-major storage). -/
def matN_getIndex (row col n : Nat) : Nat := row + col * n

/-- From src/kuhl-util.h line 696: `matNf_getRow` copies
`m[matN_getIndex(row, i, n)]` into `result[i]` for `i = 0..n-1`.  The matrix
is a flat array; here a `List Int` (the float entries are only moved, never
computed with, so an exact scalar type is used). -/
def matNf_getRow (m : List Int) (row n : Nat) : List Int :=
  (List.range n).map (fun i => m.getD (matN_getIndex row i n) 0)

/-- From src/kuhl-util.h line 726: `matNf_setRow` executes
`for(col=0; col<n; col++) matrix[matN_getIndex(row, col, n)] = v[row];`
note the source assigns `v[row]`, not `v[col]`. -/
def matNf_setRow (matrix : List Int) (v : List Int) (row n : Nat) : List Int :=
  (List.range n).foldl
    (fun mat col => mat.set (matN_getIndex row col n) (v.getD row 0)) matrix

/-- From src/kuhl-util.h line 682: `matNf_getColumn` copies
`m[matN_getIndex(i, col, n)]` into `result[i]` for `i = 0..n-1`. -/
def matNf_getColumn (m : List Int) (col n : Nat) : List Int :=
  (List.range n).map (fun i => m.getD (matN_getIndex i col n) 0)

/-- From src/kuhl-util.h line 700: 4x4 specialization of `matNf_getRow`. -/
def mat4f_getRow (m : List Int) (row : Nat) : List Int :=
  matNf_getRow m row 4

/-- From src/kuhl-util.h line 734: 4x4 specialization of `matNf_setRow`. -/
def mat4f_setRow (matrix : List Int) (v : List Int) (row : Nat) : List Int :=
  matNf_setRow matrix v row 4

/-- From src/kuhl-util.h line 714: `matNf_setColumn` executes
`for(row=0; row<n; row++) matrix[matN_getIndex(row, col, n)] = v[row];`
(the index that varies is the one `v` is subscripted with, unlike
`matNf_setRow`). -/
def matNf_setColumn (matrix : List Int) (v : List Int) (col n : Nat) : List Int :=
  (List.range n).foldl
    (fun mat row => mat.set (matN_getIndex row col n) (v.getD row 0)) matrix

/- ## Part 2: serial_find from src/lib/serial.c -/

/-- From src/lib/serial.c line 70: `serial_read(fd, &val, 1, SERIAL_NONE)`
as called from `serial_find` reads exactly one byte from the stream, blocking
until it arrives; `read()` returning 0 (end of stream / disconnected cable)
makes `serial_read` return -1.  The stream is modelled as the list of bytes
the descriptor will deliver, so a one-byte read yields the head and the
tail, or `none` at end of stream. -/
def serial_read1 (stream : List Nat) : Option (Nat × List Nat) :=
  match stream with
  | [] => none
  | b :: rest => some (b, rest)

/-- From src/lib/serial.c lines 285-307: the loop body of `serial_find`.
State: `readbytes` bytes consumed so far and a `matchIndex` into `bytes`.
Each iteration checks `maxbytes < 0 || readbytes < maxbytes`, reads one byte
(`-1` on read error), increments `readbytes`, and compares the byte against
`bytes[matchIndex]`: on a match `matchIndex` is incremented and `1` returned
once it reaches `len`; on a mismatch `matchIndex` is reset to 0 and the byte
is NOT re-examined. -/
def serial_findAux (stream : List Nat) (bytes : List Nat) (len : Nat)
    (maxbytes : Int) (readbytes : Nat) (matchIndex : Nat) : Int :=
  if maxbytes < 0 ∨ (readbytes : Int) < maxbytes then
    match stream with
    | [] => -1
    | val :: rest =>
      if bytes.getD matchIndex 0 = val then
        if matchIndex + 1 = len then 1
        else serial_findAux rest bytes len maxbytes (readbytes + 1) (matchIndex + 1)
      else serial_findAux rest bytes len maxbytes (readbytes + 1) 0
  else 0

/-- From src/lib/serial.c line 285: `serial_find(fd, bytes, len, maxbytes)`
with the descriptor's pending byte stream made explicit.  Returns 1 if the
pattern was found, 0 if `maxbytes` bytes were read without finding it, -1 on
a read error (here: the stream ended). -/
def serial_find (stream : List Nat) (bytes : List Nat) (len : Nat)
    (maxbytes : Int) : Int :=
  serial_findAux stream bytes len maxbytes 0 0

/-- The pattern `pat` occurs in `s` starting at offset `off`. -/
def occursAt (s pat : List Nat) (off : Nat) : Prop :=
  (s.drop off).take pat.length = pat

/- ## Part 3: the DGR synchronization core

The DGR implementation (dgr.c, and dgr-relay.cpp referenced from the CMake
files) is not among the available sources; only its callers (pong.c) and
build scripts are.  The following definitions are therefore modelled from
the specification (sections 3, 4.1, 4.4, 4.5 and 7). -/

/-- Modelled from the spec: node roles (dgr.c is missing; spec section 3,
`Node.role`). -/
inductive DgrRole
  | Master
  | Slave
  | Standalone
deriving DecidableEq

/-- Modelled from the spec: the error taxonomy of section 7 (dgr.c is
missing). -/
inductive DgrError
  | SchemaMismatch
  | SizeExceeded
  | ConnectionLost
  | Timeout
  | ProtocolViolation
deriving DecidableEq

/-- Modelled from the spec: `SizeExceeded` and `SchemaMismatch` are the
non-recoverable (fatal) errors; the rest are recoverable (section 7). -/
def DgrError.isFatal : DgrError → Bool
  | .SchemaMismatch => true
  | .SizeExceeded => true
  | _ => false

/-- Modelled from the spec: the Synchronization Store, a mapping from
variable name to a binary value, kept as an ordered association list
("Frame: sequence plus an ordered set of Variables", section 3).  Bytes are
`Nat` (values 0..255). -/
abbrev DgrStore := List (String × List Nat)

/-- Look a variable's current bytes up in a store. -/
def lookupVar (store : DgrStore) (name : String) : Option (List Nat) :=
  match store with
  | [] => none
  | (k, v) :: rest => if k = name then some v else lookupVar rest name

/-- Overwrite (or append) one variable in a store; variables are never
individually deleted (spec section 3, Lifecycle). -/
def setVar (store : DgrStore) (name : String) (bytes : List Nat) : DgrStore :=
  match store with
  | [] => [(name, bytes)]
  | (k, v) :: rest =>
    if k = name then (k, bytes) :: rest else (k, v) :: setVar rest name bytes

/-- Modelled from the spec: a Frame, one rendering tick's full snapshot with
a strictly increasing sequence number (section 3). -/
structure Frame where
  sequence : Nat
  snapshot : DgrStore
deriving DecidableEq

/-- Modelled from the spec: the Slave-side synchronization state, the
mirrored Store plus the monotonically advancing "last applied sequence"
watermark (section 3, Connection). -/
structure SlaveState where
  store : DgrStore
  watermark : Nat
deriving DecidableEq

/-- Modelled from the spec: `Applying` on the Slave (section 4.5).  A Frame
whose sequence number is not greater than the current watermark is
discarded; otherwise the Store entries are overwritten from the Frame and
the watermark advances.  Because every Frame is the Master's full snapshot
(partial/delta replication is a non-goal, section 1), overwriting the
Store's entries from the Frame adopts the Frame's snapshot. -/
def applyFrame (s : SlaveState) (f : Frame) : SlaveState :=
  if s.watermark < f.sequence then
    { store := f.snapshot, watermark := f.sequence }
  else s

/-- Modelled from the spec: process-wide DGR context (role, configured
per-variable maximum size, the Store, and on a Slave the set of names for
which a canonical value has been received at least once; sections 4.1
and 6). -/
structure DgrCtx where
  role : DgrRole
  maxVarSize : Nat
  store : DgrStore
  received : List String
deriving DecidableEq

/-- Modelled from the spec: `setOrGet(name, bytes)`, the single read/write
primitive of section 4.1, used identically regardless of role.  Checks the
configured per-variable maximum (`SizeExceeded`), then the size registered
for the name (`SchemaMismatch`); on Master and Standalone the bytes become
the authoritative value and are returned; on Slave the supplied bytes are
ignored once a canonical value has been received, and serve as bootstrap
default before that.  On error the context (hence the Store) is returned
unchanged. -/
def setOrGet (ctx : DgrCtx) (name : String) (bytes : List Nat) :
    Except DgrError (List Nat) × DgrCtx :=
  if ctx.maxVarSize < bytes.length then (.error .SizeExceeded, ctx)
  else
    match lookupVar ctx.store name with
    | some old =>
      if old.length ≠ bytes.length then (.error .SchemaMismatch, ctx)
      else
        match ctx.role with
        | .Slave =>
          if name ∈ ctx.received then (.ok old, ctx)
          else (.ok bytes, { ctx with store := setVar ctx.store name bytes })
        | _ => (.ok bytes, { ctx with store := setVar ctx.store name bytes })
    | none => (.ok bytes, { ctx with store := setVar ctx.store name bytes })

/-- Modelled from the spec: `Gathering` takes a full snapshot of the Store
(not a diff) and stamps it with the tick's sequence number, producing the
next outgoing Frame (section 4.5). -/
def gather (ctx : DgrCtx) (seq : Nat) : Frame :=
  { sequence := seq, snapshot := ctx.store }

/-- Apply one tick's batch of Master writes to a store. -/
def applyWrites (store : DgrStore) (ws : List (String × List Nat)) : DgrStore :=
  ws.foldl (fun st w => setVar st w.1 w.2) store

/-- Modelled from the spec: the Master's Store after ticks `1..i` of the
given per-tick write batches, starting from the empty Store created at
process start (section 3, Lifecycle). -/
def masterStore (writes : List (List (String × List Nat))) (i : Nat) : DgrStore :=
  (writes.take i).foldl applyWrites []

/-- Modelled from the spec: the Frame the Master transmits at tick `i`: the
full snapshot of its Store, with sequence number `i` (sequence numbers are
strictly increasing, one Frame per tick; sections 3 and 4.5). -/
def masterFrame (writes : List (List (String × List Nat))) (i : Nat) : Frame :=
  { sequence := i, snapshot := masterStore writes i }

/-- Modelled from the spec: a continuously connected Slave over a lossless
ordered Transport receives and applies exactly the Frames of ticks `1..i`,
in order, starting from the empty initial state.  Slave-side state is
produced only by `applyFrame`; the Slave never runs the simulation. -/
def slaveRun (writes : List (List (String × List Nat))) (i : Nat) : SlaveState :=
  ((List.range' 1 i).map (masterFrame writes)).foldl applyFrame ⟨[], 0⟩

/-- From src/samples/pong.c lines 469-474: `display()` runs the simulation
(`game()`) only when `dgr_is_enabled() == 0 || dgr_is_master()`; an enabled
non-master (Slave) never runs it. -/
def display_runs_game (dgr_is_enabled dgr_is_master : Bool) : Bool :=
  !dgr_is_enabled || dgr_is_master

/-- Modelled from the spec: the role a peer declares in its `HELLO`
handshake (section 6, frame types). -/
inductive PeerRole
  | master
  | slave
deriving DecidableEq

/-- Modelled from the spec: the outcome of a `HELLO` handshake: accepted or
rejected (section 3, "a second Master handshake is rejected, never silently
tolerated"). -/
inductive HandshakeResult
  | accepted
  | rejected
deriving DecidableEq

/-- Modelled from the spec: the connection set of an accepting endpoint —
either the Relay's listening side or a node accepting a direct peer — as
pairs of connection id and declared peer role (section 3, Connection and
Node). -/
structure AcceptorState where
  conns : List (Nat × PeerRole)
deriving DecidableEq

/-- Whether some live connection already declared the Master role. -/
def hasMaster (conns : List (Nat × PeerRole)) : Bool :=
  conns.any (fun c => c.2 = PeerRole.master)

/-- Number of live connections whose declared role is Master. -/
def countMasters (conns : List (Nat × PeerRole)) : Nat :=
  (conns.filter (fun c => c.2 = PeerRole.master)).length

/-- Modelled from the spec: processing one `HELLO` handshake (sections 3
and 6).  A `HELLO` declaring Master while a Master connection is already
live is rejected and leaves the state unchanged; every other handshake is
accepted and the connection recorded with its declared role.  The same
acceptance rule models both the Relay and a node accepting a direct peer. -/
def handshake (st : AcceptorState) (connId : Nat) (r : PeerRole) :
    HandshakeResult × AcceptorState :=
  match r with
  | .master =>
    if hasMaster st.conns then (.rejected, st)
    else (.accepted, ⟨(connId, .master) :: st.conns⟩)
  | .slave => (.accepted, ⟨(connId, .slave) :: st.conns⟩)

/-- Modelled from the spec: pushing a Frame onto one bounded per-slave
outbound queue of capacity `n` (section 4.4).  If the queue is full, the
oldest queued frame (the head) is dropped to make room; the push is a total
function of the queue alone, so it can neither block nor touch any other
state. -/
def pushBounded (n : Nat) (q : List Frame) (f : Frame) : List Frame :=
  if n ≤ q.length then q.tail ++ [f] else q ++ [f]

/-- Modelled from the spec: the Relay's only shared state, the set of
per-slave outbound queues keyed by slave connection id (sections 4.4
and 5). -/
structure RelayState where
  queues : List (Nat × List Frame)
deriving DecidableEq

/-- Look one slave's outbound queue up by connection id. -/
def lookupQueue (qs : List (Nat × List Frame)) (sid : Nat) : Option (List Frame) :=
  match qs with
  | [] => none
  | (k, q) :: rest => if k = sid then some q else lookupQueue rest sid

/-- Modelled from the spec: the Master-input thread pushing a received Frame
onto the queue of slave `sid` with per-queue bound `n`; all other slaves'
queues are untouched (section 4.4). -/
def relayPush (n : Nat) (st : RelayState) (sid : Nat) (f : Frame) : RelayState :=
  ⟨st.queues.map (fun p => if p.1 = sid then (p.1, pushBounded n p.2 f) else p)⟩

/-- Modelled from the spec: what one per-tick `receive(timeout)` on the
Slave can yield — a complete Frame, a timeout, a closed/lost connection, or
a malformed frame (sections 4.3 and 7). -/
inductive RecvOutcome
  | frame (f : Frame)
  | timeout
  | closed
  | malformed
deriving DecidableEq

/-- Modelled from the spec: the Slave side of the per-tick `update()` call
(sections 4.5, 6 and 7).  A received Frame is applied through `applyFrame`;
every recoverable condition (`Timeout`, `ConnectionLost`, a
`ProtocolViolation`) is absorbed and the state keeps its last-applied
values; the call is total, so no error propagates out of it. -/
def dgr_update (s : SlaveState) (o : RecvOutcome) : SlaveState :=
  match o with
  | .frame f => applyFrame s f
  | .timeout => s
  | .closed => s
  | .malformed => s

/-- The spec's concrete scenario (section 8): the 12-byte counter value the
Master writes into variable "ball" at tick `i` (counter in byte 0, the
remaining 11 bytes zero). -/
def ballBytes (i : Nat) : List Nat :=
  i % 256 :: List.replicate 11 0

/-- The Frame the Master sends at tick `i` of the scenario: sequence `i`,
snapshot holding "ball" = `ballBytes i`. -/
def scenarioFrame (i : Nat) : Frame :=
  { sequence := i, snapshot := [("ball", ballBytes i)] }

/-- The sequence of "ball" values a Slave observes: the value read from its
Store after each Frame it actually applies (i.e. each time its watermark
advances); discarded frames contribute no observation. -/
def observeBall (s : SlaveState) (fs : List Frame) : List (List Nat) :=
  match fs with
  | [] => []
  | f :: rest =>
    if s.watermark < f.sequence then
      ((lookupVar (applyFrame s f).store "ball").getD [])
        :: observeBall (applyFrame s f) rest
    else observeBall (applyFrame s f) rest

/- ## Helper lemmas -/

theorem applyFrame_watermark_le (s : SlaveState) (f : Frame) :
    s.watermark ≤ (applyFrame s f).watermark := by
  unfold applyFrame
  split
  case isTrue h => exact Nat.le_of_lt h
  case isFalse h => exact Nat.le_refl _

theorem foldl_applyFrame_watermark_le (fs : List Frame) (s : SlaveState) :
    s.watermark ≤ (fs.foldl applyFrame s).watermark := by
  induction fs generalizing s with
  | nil => exact Nat.le_refl _
  | cons f rest ih =>
    exact Nat.le_trans (applyFrame_watermark_le s f) (ih (applyFrame s f))

theorem countMasters_eq_zero_of_not_hasMaster (conns : List (Nat × PeerRole))
    (h : hasMaster conns = false) : countMasters conns = 0 := by
  induction conns with
  | nil => rfl
  | cons c rest ih =>
    rw [hasMaster, List.any_cons, Bool.or_eq_false_iff] at h
    rw [countMasters, List.filter_cons, if_neg (by simp [h.1])]
    exact ih h.2

theorem lookupVar_setVar_self (store : DgrStore) (name : String)
    (bytes : List Nat) :
    lookupVar (setVar store name bytes) name = some bytes := by
  induction store with
  | nil => simp [setVar, lookupVar]
  | cons kv rest ih =>
    obtain ⟨k, v⟩ := kv
    by_cases h : k = name
    · simp [setVar, lookupVar, h]
    · simp [setVar, lookupVar, h, ih]

theorem mem_setVar_self (store : DgrStore) (name : String) (bytes : List Nat) :
    (name, bytes) ∈ setVar store name bytes := by
  induction store with
  | nil => simp [setVar]
  | cons kv rest ih =>
    obtain ⟨k, v⟩ := kv
    by_cases h : k = name
    · simp [setVar, h]
    · simp [setVar, h, ih]

theorem lookupQueue_relayPush_ne (n : Nat) (qs : List (Nat × List Frame))
    (sid sid2 : Nat) (f : Frame) (h : sid2 ≠ sid) :
    lookupQueue
      (qs.map fun p => if p.1 = sid then (p.1, pushBounded n p.2 f) else p)
      sid2 = lookupQueue qs sid2 := by
  induction qs with
  | nil => rfl
  | cons kq rest ih =>
    obtain ⟨k, q⟩ := kq
    simp only [List.map_cons]
    by_cases hk : k = sid
    · rw [if_pos hk]
      have hk2 : ¬k = sid2 := by omega
      rw [lookupQueue, if_neg hk2, lookupQueue, if_neg hk2]
      exact ih
    · rw [if_neg hk]
      by_cases hk2 : k = sid2
      · rw [lookupQueue, if_pos hk2, lookupQueue, if_pos hk2]
      · rw [lookupQueue, if_neg hk2, lookupQueue, if_neg hk2]
        exact ih

theorem slaveRun_eq (writes : List (List (String × List Nat))) (i : Nat) :
    slaveRun writes i = ⟨masterStore writes i, i⟩ := by
  induction i with
  | zero => rfl
  | succ n ih =>
    unfold slaveRun at ih ⊢
    rw [show List.range' 1 (n + 1) = List.range' 1 n ++ [n + 1] from by
          simpa [Nat.add_comm] using @List.range'_concat 1 1 n,
        List.map_append, List.foldl_append, ih]
    simp [applyFrame, masterFrame]

theorem setOrGet_spec (ctx : DgrCtx) (name : String) (bytes : List Nat) :
    (ctx.maxVarSize < bytes.length ∧
      setOrGet ctx name bytes = (.error .SizeExceeded, ctx)) ∨
    (bytes.length ≤ ctx.maxVarSize ∧
      (∃ old, lookupVar ctx.store name = some old ∧ old.length ≠ bytes.length) ∧
      setOrGet ctx name bytes = (.error .SchemaMismatch, ctx)) ∨
    (bytes.length ≤ ctx.maxVarSize ∧
      (∀ old, lookupVar ctx.store name = some old → old.length = bytes.length) ∧
      ∃ v ctx', setOrGet ctx name bytes = (.ok v, ctx')) := by
  by_cases hsz : ctx.maxVarSize < bytes.length
  · exact Or.inl ⟨hsz, by rw [setOrGet, if_pos hsz]⟩
  · rw [Nat.not_lt] at hsz
    have hsz2 : ¬ctx.maxVarSize < bytes.length := Nat.not_lt.mpr hsz
    cases hl : lookupVar ctx.store name with
    | none =>
      refine Or.inr (Or.inr ⟨hsz, ?_, bytes,
        { ctx with store := setVar ctx.store name bytes }, ?_⟩)
      · intro old h
        exact Option.noConfusion h
      · simp [setOrGet, hl, hsz2]
    | some old =>
      by_cases hlen : old.length = bytes.length
      · refine Or.inr (Or.inr ⟨hsz,
          fun o h => (Option.some.inj h) ▸ hlen, ?_⟩)
        cases hr : ctx.role with
        | Slave =>
          by_cases hrc : name ∈ ctx.received
          · exact ⟨old, ctx, by simp [setOrGet, hl, hsz2, hlen, hr, hrc]⟩
          · exact ⟨bytes, { ctx with store := setVar ctx.store name bytes },
              by simp [setOrGet, hl, hsz2, hlen, hr, hrc]⟩
        | Master =>
          exact ⟨bytes, { ctx with store := setVar ctx.store name bytes },
            by simp [setOrGet, hl, hsz2, hlen, hr]⟩
        | Standalone =>
          exact ⟨bytes, { ctx with store := setVar ctx.store name bytes },
            by simp [setOrGet, hl, hsz2, hlen, hr]⟩
      · refine Or.inr (Or.inl ⟨hsz, ⟨old, rfl, hlen⟩, ?_⟩)
        simp [setOrGet, hl, hsz2, hlen]

/- ## Claim theorems -/

/-- C1: For every sequence of Master writes across ticks 1..n, a Slave that
is continuously connected over a lossless ordered Transport (so it applies
exactly the Frames of ticks 1..i, in order) has an applied Store at tick i
that is byte-identical to the Master's snapshot at tick i, for every i.
Slave-side state is produced only by applying replicated Frames
(`slaveRun` is a fold of `applyFrame` from the empty state); the render
loop of pong.c runs the simulation only when standalone or master, so an
enabled non-master never runs it. -/
theorem dgr_lossless_convergence :
    (∀ (writes : List (List (String × List Nat))) (i : Nat),
      (slaveRun writes i).store = masterStore writes i) ∧
    display_runs_game true false = false := by
  constructor
  · intro writes i
    rw [slaveRun_eq]
  · rfl

/-- C2: In every session there is at most one Master.  A `HELLO` declaring
Master while a Master connection is live is rejected with the state
unchanged; a second Master handshake is never silently accepted (acceptance
implies no Master was present); and every handshake preserves the
at-most-one-Master invariant.  The same acceptance rule models the Relay
and a direct peer. -/
theorem dgr_single_master :
    (∀ (st : AcceptorState) (c : Nat),
      hasMaster st.conns = true → handshake st c .master = (.rejected, st)) ∧
    (∀ (st : AcceptorState) (c : Nat),
      (handshake st c .master).1 = .accepted → hasMaster st.conns = false) ∧
    (∀ (st : AcceptorState) (c : Nat) (r : PeerRole),
      countMasters st.conns ≤ 1 →
        countMasters (handshake st c r).2.conns ≤ 1) := by
  refine ⟨fun st c h => ?_, fun st c h => ?_, fun st c r h => ?_⟩
  · rw [handshake, if_pos h]
  · by_cases hm : hasMaster st.conns
    · rw [handshake, if_pos hm] at h
      exact absurd h (by simp)
    · exact Bool.eq_false_iff.mpr hm
  · cases r with
    | master =>
      by_cases hm : hasMaster st.conns
      · rw [handshake, if_pos hm]
        exact h
      · rw [handshake, if_neg hm]
        have h0 := countMasters_eq_zero_of_not_hasMaster st.conns
          (Bool.eq_false_iff.mpr hm)
        simp only [countMasters, List.filter_cons] at h0 ⊢
        rw [if_pos (by simp)]
        simp [h0]
    | slave =>
      rw [handshake]
      simp only [countMasters, List.filter_cons] at h ⊢
      rw [if_neg (by simp)]
      exact h

/-- Closed instance of C2: with a Master already connected as connection 0,
a second Master handshake from connection 7 is rejected and leaves the
state unchanged. -/
theorem dgr_single_master_witness :
    handshake ⟨[(0, .master)]⟩ 7 .master = (.rejected, ⟨[(0, .master)]⟩) :=
  dgr_single_master.1 ⟨[(0, .master)]⟩ 7 (by decide)

/-- C3: a Slave's applied watermark is monotonically non-decreasing over a
whole session (any fold of received Frames); a Frame whose sequence number
is not greater than the current watermark is discarded with store and
watermark unchanged; and a Frame with any greater sequence number — a gap
is not fatal — is adopted wholesale, so the Slave holds the most recent
Frame it has seen. -/
theorem dgr_watermark_monotone :
    (∀ (s : SlaveState) (fs : List Frame),
      s.watermark ≤ (fs.foldl applyFrame s).watermark) ∧
    (∀ (s : SlaveState) (f : Frame),
      f.sequence ≤ s.watermark → applyFrame s f = s) ∧
    (∀ (s : SlaveState) (f : Frame),
      s.watermark < f.sequence →
        applyFrame s f = { store := f.snapshot, watermark := f.sequence }) := by
  refine ⟨fun s fs => foldl_applyFrame_watermark_le fs s,
    fun s f h => ?_, fun s f h => ?_⟩
  · rw [applyFrame, if_neg (by omega)]
  · rw [applyFrame, if_pos h]

/-- Closed instance of C3: a Slave at watermark 5 discards a stale Frame
with sequence number 3. -/
theorem dgr_watermark_monotone_witness :
    applyFrame ⟨[("x", [1])], 5⟩ ⟨3, [("x", [9])]⟩ = ⟨[("x", [1])], 5⟩ :=
  dgr_watermark_monotone.2.1 ⟨[("x", [1])], 5⟩ ⟨3, [("x", [9])]⟩ (by decide)

/-- C4: in the concrete scenario — Master writes "ball" as a 12-byte
counter incrementing 0..9 one per tick — a Slave connecting at tick 3 under
a lossless Transport observes exactly the values 3,4,5,6,7,8,9 in that
order (no repeats, no skips), and under a Transport that drops the Frame of
tick 6 it observes exactly 3,4,5,7,8,9; both runs are computed by total
functions, so the Slave never crashes. -/
theorem dgr_ball_scenario :
    observeBall ⟨[], 0⟩ ([3, 4, 5, 6, 7, 8, 9].map scenarioFrame)
      = [3, 4, 5, 6, 7, 8, 9].map ballBytes ∧
    observeBall ⟨[], 0⟩ ([3, 4, 5, 7, 8, 9].map scenarioFrame)
      = [3, 4, 5, 7, 8, 9].map ballBytes := by
  constructor <;> rfl

/-- C7: pushing a Frame onto a full bounded per-slave queue evicts exactly
that slave's oldest queued frame (the queue head), so a queue respecting
the bound N (with N at least 1) still respects it after any push, and a
push directed at one slave leaves every other slave's queue untouched.  The
push is a total function of that one queue, so it cannot block the
Master-input thread. -/
theorem dgr_relay_bounded_queue :
    (∀ (n : Nat) (q : List Frame) (f : Frame),
      1 ≤ n → q.length ≤ n → (pushBounded n q f).length ≤ n) ∧
    (∀ (n : Nat) (q : List Frame) (f : Frame),
      q.length = n → pushBounded n q f = q.drop 1 ++ [f]) ∧
    (∀ (n : Nat) (st : RelayState) (sid sid2 : Nat) (f : Frame),
      sid2 ≠ sid →
        lookupQueue (relayPush n st sid f).queues sid2
          = lookupQueue st.queues sid2) := by
  refine ⟨fun n q f h1 h2 => ?_, fun n q f h => ?_,
    fun n st sid sid2 f h => lookupQueue_relayPush_ne n st.queues sid sid2 f h⟩
  · rw [pushBounded]
    split
    case isTrue hfull =>
      cases q with
      | nil => simp at hfull; omega
      | cons a as => simp at h2 ⊢; omega
    case isFalse hroom => simp at hroom ⊢; omega
  · rw [pushBounded, if_pos (Nat.le_of_eq h.symm), List.drop_one]

/-- Closed instance of C7: pushing frame 3 onto the full 2-slot queue
[frame 1, frame 2] keeps the length within the bound and evicts frame 1. -/
theorem dgr_relay_bounded_queue_witness :
    (pushBounded 2 [⟨1, []⟩, ⟨2, []⟩] ⟨3, []⟩).length ≤ 2 :=
  dgr_relay_bounded_queue.1 2 [⟨1, []⟩, ⟨2, []⟩] ⟨3, []⟩ (by decide) (by decide)

/-- C8: no error arising in the synchronization subsystem propagates out of
a per-tick call.  The per-tick `update` absorbs every recoverable receive
outcome (timeout, lost connection, malformed frame) and returns the
last-applied state unchanged, and the only errors `setOrGet` can ever
surface are the two fatal schema-level ones. -/
theorem dgr_per_tick_error_containment :
    (∀ (s : SlaveState) (o : RecvOutcome),
      (∀ f, o ≠ RecvOutcome.frame f) → dgr_update s o = s) ∧
    (∀ (ctx : DgrCtx) (name : String) (bytes : List Nat) (e : DgrError),
      (setOrGet ctx name bytes).1 = .error e → e.isFatal = true) := by
  constructor
  · intro s o h
    cases o with
    | frame f => exact absurd rfl (h f)
    | timeout => rfl
    | closed => rfl
    | malformed => rfl
  · intro ctx name bytes e h
    rcases setOrGet_spec ctx name bytes with ⟨-, hs⟩ | ⟨-, -, hs⟩ | ⟨-, -, v, ctx', hs⟩
    · rw [hs] at h
      cases h
      rfl
    · rw [hs] at h
      cases h
      rfl
    · rw [hs] at h
      exact Except.noConfusion h

/-- Closed instance of C8: a timed-out receive leaves the Slave's
last-applied state untouched. -/
theorem dgr_per_tick_error_containment_witness :
    dgr_update ⟨[("x", [1])], 3⟩ .timeout = ⟨[("x", [1])], 3⟩ :=
  dgr_per_tick_error_containment.1 ⟨[("x", [1])], 3⟩ .timeout
    (fun _ h => RecvOutcome.noConfusion h)

/-- C9: evaluating the set-row/get-row round trip of src/kuhl-util.h at a
concrete input: writing the vector (10,20,30,40) into row 0 of the zero 4x4
matrix with `mat4f_setRow` and reading row 0 back with `mat4f_getRow`
yields (10,10,10,10), not the vector — `matNf_setRow` assigns `v[row]` at
every column, contradicting its own documentation header, while the sibling
`matNf_setColumn` correctly restores the vector. -/
theorem mat4f_setRow_getRow_bug :
    mat4f_getRow (mat4f_setRow (List.replicate 16 0) [10, 20, 30, 40] 0) 0
      = [10, 10, 10, 10] ∧
    mat4f_getRow (mat4f_setRow (List.replicate 16 0) [10, 20, 30, 40] 0) 0
      ≠ [10, 20, 30, 40] ∧
    matNf_getColumn (matNf_setColumn (List.replicate 16 0) [10, 20, 30, 40] 0 4)
      0 4 = [10, 20, 30, 40] := by
  refine ⟨by decide, by decide, by decide⟩

/-- C5: for every variable name and payload, `setOrGet` on a Master — and
identically on a Standalone node, through the same single primitive — makes
the supplied bytes the variable's current authoritative value, includes
that value in the next outgoing Frame (the `gather` snapshot of any later
tick), and returns exactly the bytes just written, whenever the write is
schema-consistent. -/
theorem dgr_setOrGet_master_write :
    ∀ (ctx : DgrCtx) (name : String) (bytes : List Nat) (t : Nat),
      (ctx.role = .Master ∨ ctx.role = .Standalone) →
      bytes.length ≤ ctx.maxVarSize →
      (∀ old, lookupVar ctx.store name = some old →
        old.length = bytes.length) →
      ∃ ctx' : DgrCtx,
        setOrGet ctx name bytes = (.ok bytes, ctx') ∧
        ctx'.store = setVar ctx.store name bytes ∧
        lookupVar ctx'.store name = some bytes ∧
        (name, bytes) ∈ (gather ctx' t).snapshot := by
  intro ctx name bytes t hrole hsz hsch
  have hsz2 : ¬ctx.maxVarSize < bytes.length := Nat.not_lt.mpr hsz
  refine ⟨{ ctx with store := setVar ctx.store name bytes }, ?_, rfl, ?_, ?_⟩
  · cases hl : lookupVar ctx.store name with
    | none =>
      rcases hrole with hr | hr <;> simp [setOrGet, hl, hsz2, hr]
    | some old =>
      have hlen : old.length = bytes.length := hsch old hl
      rcases hrole with hr | hr <;> simp [setOrGet, hl, hsz2, hlen, hr]
  · exact lookupVar_setVar_self ctx.store name bytes
  · exact mem_setVar_self ctx.store name bytes

/-- Closed instance of C5: a first write of "ball" on a fresh Master store
returns the written bytes, stores them, and they appear in the next
gathered Frame. -/
theorem dgr_setOrGet_master_write_witness :
    ∃ ctx' : DgrCtx,
      setOrGet ⟨.Master, 16, [], []⟩ "ball" [7, 7] = (.ok [7, 7], ctx') ∧
      ctx'.store = setVar [] "ball" [7, 7] ∧
      lookupVar ctx'.store "ball" = some [7, 7] ∧
      ("ball", [7, 7]) ∈ (gather ctx' 1).snapshot :=
  dgr_setOrGet_master_write ⟨.Master, 16, [], []⟩ "ball" [7, 7] 1
    (Or.inl rfl) (by decide) (fun old h => Option.noConfusion h)

/-- C6: `setOrGet` fails with `SizeExceeded` exactly when the payload
exceeds the configured per-variable maximum; on payloads where the two
failure conditions cannot overlap (payload within the maximum, or name not
yet registered) it fails with `SchemaMismatch` exactly when the payload
size disagrees with the size previously registered for the name (when both
conditions hold at once the model surfaces `SizeExceeded`); every failure
leaves the context, hence the Store, unchanged; and these two are exactly
the non-recoverable (fatal) errors of the subsystem. -/
theorem dgr_setOrGet_errors :
    ∀ (ctx : DgrCtx) (name : String) (bytes : List Nat),
      ((setOrGet ctx name bytes).1 = .error .SizeExceeded ↔
        ctx.maxVarSize < bytes.length) ∧
      (bytes.length ≤ ctx.maxVarSize ∨ lookupVar ctx.store name = none →
        ((setOrGet ctx name bytes).1 = .error .SchemaMismatch ↔
          ∃ old, lookupVar ctx.store name = some old ∧
            old.length ≠ bytes.length)) ∧
      (∀ e, (setOrGet ctx name bytes).1 = .error e →
        (setOrGet ctx name bytes).2 = ctx) ∧
      (∀ e : DgrError, e.isFatal = true ↔
        (e = .SchemaMismatch ∨ e = .SizeExceeded)) := by
  intro ctx name bytes
  have hfatal : ∀ e : DgrError, e.isFatal = true ↔
      (e = .SchemaMismatch ∨ e = .SizeExceeded) := by
    intro e
    cases e <;> simp [DgrError.isFatal]
  rcases setOrGet_spec ctx name bytes with ⟨hc, hs⟩ | ⟨hc, hex, hs⟩ |
    ⟨hc, hall, v, ctx', hs⟩
  · refine ⟨⟨fun _ => hc, fun _ => by rw [hs]⟩, ?_, fun e _ => by rw [hs],
      hfatal⟩
    intro hcoh
    have hnone : lookupVar ctx.store name = none := by
      rcases hcoh with h | h
      · exact absurd hc (Nat.not_lt.mpr h)
      · exact h
    constructor
    · intro h
      rw [hs] at h
      exact absurd (Except.error.inj h) (by decide)
    · rintro ⟨old, hold, -⟩
      rw [hnone] at hold
      exact Option.noConfusion hold
  · refine ⟨?_, fun _ => ⟨fun _ => hex, fun _ => by rw [hs]⟩,
      fun e _ => by rw [hs], hfatal⟩
    constructor
    · intro h
      rw [hs] at h
      exact absurd (Except.error.inj h) (by decide)
    · intro h
      exact absurd h (Nat.not_lt.mpr hc)
  · refine ⟨⟨fun h => ?_, fun h => absurd h (Nat.not_lt.mpr hc)⟩,
      fun _ => ⟨fun h => ?_, ?_⟩, fun e h => ?_, hfatal⟩
    · rw [hs] at h
      exact Except.noConfusion h
    · rw [hs] at h
      exact Except.noConfusion h
    · rintro ⟨old, hold, hne⟩
      exact absurd (hall old hold) hne
    · rw [hs] at h
      exact Except.noConfusion h

/-- Closed instance of C6: writing a 2-byte payload where the configured
maximum is 1 byte fails with `SizeExceeded`. -/
theorem dgr_setOrGet_errors_witness :
    (setOrGet ⟨.Master, 1, [], []⟩ "x" [1, 2]).1 = .error .SizeExceeded :=
  ((dgr_setOrGet_errors ⟨.Master, 1, [], []⟩ "x" [1, 2]).1).mpr (by decide)

/- ## C10: serial_find lemmas -/

theorem serial_findAux_cons (b : Nat) (l bytes : List Nat) (len : Nat)
    (maxbytes : Int) (rb mi : Nat)
    (hg : maxbytes < 0 ∨ (rb : Int) < maxbytes) :
    serial_findAux (b :: l) bytes len maxbytes rb mi =
      if bytes.getD mi 0 = b then
        (if mi + 1 = len then 1
         else serial_findAux l bytes len maxbytes (rb + 1) (mi + 1))
      else serial_findAux l bytes len maxbytes (rb + 1) 0 := by
  rw [serial_findAux, if_pos hg]

theorem serial_findAux_matches (pat rest : List Nat) (maxbytes : Int) :
    ∀ (k j rb : Nat), pat.length - j = k → j < pat.length →
      (maxbytes < 0 ∨ ((rb + (pat.length - j) : Nat) : Int) ≤ maxbytes) →
      serial_findAux (pat.drop j ++ rest) pat pat.length maxbytes rb j = 1 := by
  intro k
  induction k with
  | zero =>
    intro j rb hk hj _
    omega
  | succ k ih =>
    intro j rb hk hj hbud
    have hguard : maxbytes < 0 ∨ (rb : Int) < maxbytes := by
      rcases hbud with h | h
      · exact Or.inl h
      · right
        omega
    rw [List.drop_eq_getElem_cons hj, List.cons_append,
      serial_findAux_cons _ _ _ _ _ _ _ hguard,
      if_pos (List.getD_eq_getElem pat 0 hj)]
    by_cases hdone : j + 1 = pat.length
    · rw [if_pos hdone]
    · rw [if_neg hdone]
      refine ih (j + 1) (rb + 1) (by omega) (by omega) ?_
      rcases hbud with h | h
      · exact Or.inl h
      · right
        omega

theorem serial_findAux_clean_lead (pat rest : List Nat) (maxbytes : Int) :
    ∀ (u : List Nat) (rb : Nat), 0 < pat.length →
      (∀ b ∈ u, b ≠ pat.getD 0 0) →
      (maxbytes < 0 ∨ ((rb + u.length + pat.length : Nat) : Int) ≤ maxbytes) →
      serial_findAux (u ++ (pat ++ rest)) pat pat.length maxbytes rb 0 = 1 := by
  intro u
  induction u with
  | nil =>
    intro rb hlen hcl hbud
    have hm := serial_findAux_matches pat rest maxbytes pat.length 0 rb
      (by omega) hlen ?_
    · simpa using hm
    · rcases hbud with h | h
      · exact Or.inl h
      · right
        simp only [List.length_nil] at h
        omega
  | cons b u ih =>
    intro rb hlen hcl hbud
    have hguard : maxbytes < 0 ∨ (rb : Int) < maxbytes := by
      rcases hbud with h | h
      · exact Or.inl h
      · right
        simp only [List.length_cons] at h
        omega
    have hne : ¬pat.getD 0 0 = b :=
      fun he => hcl b (List.mem_cons_self b u) he.symm
    rw [List.cons_append, serial_findAux_cons _ _ _ _ _ _ _ hguard, if_neg hne]
    refine ih (rb + 1) hlen (fun x hx => hcl x (List.mem_cons_of_mem b hx)) ?_
    rcases hbud with h | h
    · exact Or.inl h
    · right
      simp only [List.length_cons] at h
      omega

/-- C10 counterexample: the pattern (97, 98) occurs at offset 1 of the
stream (97, 97, 98), entirely within the first maxbytes = 3 bytes read (and
3 is at least the pattern length 2), yet `serial_find` returns 0 rather
than 1: the first stream byte begins a partial match that consumes the 97
at offset 1, and on the subsequent mismatch the scan resets `matchIndex`
without re-examining the current byte. -/
theorem serial_find_misses_overlap :
    occursAt [97, 97, 98] [97, 98] 1 ∧
    1 + ([97, 98] : List Nat).length ≤ 3 ∧
    serial_find [97, 97, 98] [97, 98] 2 3 ≠ 1 ∧
    serial_find [97, 97, 98] [97, 98] 2 3 = 0 := by
  refine ⟨rfl, by decide, by decide, by decide⟩

/-- C10 amended: if the stream is `u ++ pat ++ rest` with `pat` non-empty
and no byte of the prefix `u` equal to the pattern's first byte, and the
byte budget reaches through the occurrence (`maxbytes` negative, i.e.
unlimited, or at least `u.length + pat.length`), then `serial_find` returns
1.  The counterexample `serial_find_misses_overlap` shows the
clean-prefix condition cannot be dropped: an occurrence overlapping a
failed partial match is missed by the reset-without-re-examination scan. -/
theorem serial_find_clean_prefix_finds :
    ∀ (u pat rest : List Nat) (maxbytes : Int),
      0 < pat.length →
      (∀ b ∈ u, b ≠ pat.getD 0 0) →
      (maxbytes < 0 ∨ ((u.length + pat.length : Nat) : Int) ≤ maxbytes) →
      serial_find (u ++ (pat ++ rest)) pat pat.length maxbytes = 1 := by
  intro u pat rest maxbytes hlen hcl hbud
  refine serial_findAux_clean_lead pat rest maxbytes u 0 hlen hcl ?_
  rcases hbud with h | h
  · exact Or.inl h
  · right
    omega

/-- Closed instance of the amended C10: in the stream 99, 97, 98, 5 the
pattern (97, 98) follows a prefix free of 97, and `serial_find` with a
budget of 3 bytes finds it. -/
theorem serial_find_clean_prefix_finds_witness :
    serial_find ([99] ++ ([97, 98] ++ [5])) [97, 98] 2 3 = 1 :=
  serial_find_clean_prefix_finds [99] [97, 98] [5] 3 (by decide) (by decide)
    (by decide)
